import Mathlib

/-!
# Verification of the Portless cash-velocity simulation core

Shallow embedding of `simulate` (Portless Cash Velocity Simulation, v3)
over the real numbers, together with computable rational mirrors used to
evaluate the model at concrete inputs.

The source function derives a per-cycle growth rate and two cycle lengths
from the three inputs, runs a 12-step compounding loop with 4% monthly
decay, records the 2-decimal-rounded indices in a series, and returns the
series together with the ratio of the two final (unrounded) accumulators.
-/

/-- `round2(n) = Math.round(n * 100) / 100` from the source.
`Math.round` rounds half toward positive infinity, which is exactly
Mathlib's `round` (`round x = ⌊x + 1/2⌋`). -/
noncomputable def round2 (n : ℝ) : ℝ :=
  ((round (n * 100) : ℤ) : ℝ) / 100

/-- `const rawExcess = cm * (roas - 1)` from the source. -/
def rawExcess (cm roas : ℝ) : ℝ := cm * (roas - 1)

/-- `const growthPerCycle = Math.min(Math.pow(Math.max(rawExcess, 0), 0.7) * 0.14, 0.35)`
from the source.  The fractional power is real exponentiation (`Real.rpow`). -/
noncomputable def growthPerCycle (cm roas : ℝ) : ℝ :=
  min ((max (rawExcess cm roas) 0) ^ (0.7 : ℝ) * 0.14) 0.35

/-- `const TRADITIONAL_CYCLE = 3.5` from the source. -/
def TRADITIONAL_CYCLE : ℝ := 3.5

/-- `const portlessCycle = Math.max(0.75, 1.0 - (netTermsDays - 30) * 0.004)` from the source. -/
noncomputable def portlessCycle (netTermsDays : ℝ) : ℝ :=
  max 0.75 (1.0 - (netTermsDays - 30) * 0.004)

/-- `const portlessMonthly = growthPerCycle / portlessCycle` from the source. -/
noncomputable def portlessMonthly (cm roas netTermsDays : ℝ) : ℝ :=
  growthPerCycle cm roas / portlessCycle netTermsDays

/-- `const traditionalMonthly = growthPerCycle / TRADITIONAL_CYCLE` from the source. -/
noncomputable def traditionalMonthly (cm roas : ℝ) : ℝ :=
  growthPerCycle cm roas / TRADITIONAL_CYCLE

/-- `const DECAY = 0.96` from the source. -/
def DECAY : ℝ := 0.96

/-- The loop accumulator of the source (`pIdx` resp. `tIdx`): starting from 1,
month `m+1` multiplies by `(1 + rate * DECAY ^ m)` (the source writes the decay
factor at month `m` as `Math.pow(DECAY, m - 1)`).  The accumulator is never
rounded; rounding only happens when a point is pushed onto `data`. -/
noncomputable def idx (rate : ℝ) : ℕ → ℝ
  | 0 => 1
  | m + 1 => idx rate m * (1 + rate * DECAY ^ m)

/-- One entry of the `data` array built by the source:
`{ month, portless, traditional }`. -/
structure IndexedPoint where
  month : ℕ
  portless : ℝ
  traditional : ℝ

instance : Inhabited IndexedPoint := ⟨⟨0, 1, 1⟩⟩

/-- The object returned by `simulate`: `{ data, multiplier }`. -/
structure SimResult where
  data : List IndexedPoint
  multiplier : ℝ

/-- `export function simulate(cm, roas, netTermsDays)` from the source.
`data` starts with `{ month: 0, portless: 1, traditional: 1 }`; the loop for
`m = 1..12` pushes `{ month: m, portless: round2(pIdx), traditional: round2(tIdx) }`
where `pIdx`/`tIdx` are the unrounded accumulators; afterwards
`multiplier = pIdx / tIdx` (final, unrounded accumulators). -/
noncomputable def simulate (cm roas netTermsDays : ℝ) : SimResult :=
  { data := ⟨0, 1, 1⟩ :: (List.range 12).map (fun i =>
      ⟨i + 1, round2 (idx (portlessMonthly cm roas netTermsDays) (i + 1)),
              round2 (idx (traditionalMonthly cm roas) (i + 1))⟩),
    multiplier := idx (portlessMonthly cm roas netTermsDays) 12 /
                  idx (traditionalMonthly cm roas) 12 }

/-- Modelled from the spec: the §4.2 recurrence in which the value carried
into the next month's multiplication is the ROUNDED index ("an implementer
must carry the rounded value forward, not a higher-precision shadow value").
This is the spec's claimed behaviour, written here to be compared against
the source's accumulator `idx`. -/
noncomputable def idxRoundedForward (rate : ℝ) : ℕ → ℝ
  | 0 => 1
  | m + 1 => round2 (idxRoundedForward rate m * (1 + rate * DECAY ^ m))

/-! ## Computable rational mirrors, for evaluation at concrete inputs -/

/-- Rational mirror of `round2`. -/
def round2Q (n : ℚ) : ℚ :=
  ((round (n * 100) : ℤ) : ℚ) / 100

/-- Rational mirror of `idx`. -/
def idxQ (rate : ℚ) : ℕ → ℚ
  | 0 => 1
  | m + 1 => idxQ rate m * (1 + rate * (0.96 : ℚ) ^ m)

/-- Rational mirror of `idxRoundedForward`. -/
def idxRoundedForwardQ (rate : ℚ) : ℕ → ℚ
  | 0 => 1
  | m + 1 => round2Q (idxRoundedForwardQ rate m * (1 + rate * (0.96 : ℚ) ^ m))

/-! ## Transfer lemmas between the real model and the rational mirrors -/

lemma round2_cast (q : ℚ) : round2 (q : ℝ) = ((round2Q q : ℚ) : ℝ) := by
  unfold round2 round2Q
  have h : ((q : ℝ) * 100) = (((q * 100 : ℚ) : ℝ)) := by push_cast; ring
  rw [h, Rat.round_cast]
  push_cast
  ring

lemma DECAY_cast : DECAY = ((0.96 : ℚ) : ℝ) := by
  norm_num [DECAY]

lemma idx_cast (q : ℚ) (m : ℕ) : idx (q : ℝ) m = ((idxQ q m : ℚ) : ℝ) := by
  induction m with
  | zero => simp [idx, idxQ]
  | succ n ih =>
      rw [idx, idxQ, ih, DECAY_cast]
      push_cast
      ring

lemma idxRoundedForward_cast (q : ℚ) (m : ℕ) :
    idxRoundedForward (q : ℝ) m = ((idxRoundedForwardQ q m : ℚ) : ℝ) := by
  induction m with
  | zero => simp [idxRoundedForward, idxRoundedForwardQ]
  | succ n ih =>
      rw [idxRoundedForward, idxRoundedForwardQ, ih, DECAY_cast]
      rw [show ((idxRoundedForwardQ q n : ℚ) : ℝ) * (1 + (q : ℝ) * ((0.96 : ℚ) : ℝ) ^ n)
            = (((idxRoundedForwardQ q n * (1 + q * (0.96 : ℚ) ^ n) : ℚ)) : ℝ) by push_cast; ring]
      exact round2_cast _

/-! ## Basic facts about the derived rates -/

lemma growthPerCycle_nonneg (cm roas : ℝ) : 0 ≤ growthPerCycle cm roas := by
  unfold growthPerCycle
  apply le_min _ (by norm_num)
  exact mul_nonneg (Real.rpow_nonneg (le_max_right _ _) _) (by norm_num)

lemma portlessCycle_pos (netTermsDays : ℝ) : 0 < portlessCycle netTermsDays :=
  lt_of_lt_of_le (by norm_num) (le_max_left _ _)

lemma portlessMonthly_nonneg (cm roas netTermsDays : ℝ) :
    0 ≤ portlessMonthly cm roas netTermsDays :=
  div_nonneg (growthPerCycle_nonneg cm roas) (portlessCycle_pos netTermsDays).le

lemma traditionalMonthly_nonneg (cm roas : ℝ) : 0 ≤ traditionalMonthly cm roas :=
  div_nonneg (growthPerCycle_nonneg cm roas) (by norm_num [TRADITIONAL_CYCLE])

lemma DECAY_pow_nonneg (m : ℕ) : 0 ≤ DECAY ^ m :=
  pow_nonneg (by norm_num [DECAY]) m

/-! ## Basic facts about the accumulator and rounding -/

lemma idx_pos (rate : ℝ) (h : 0 ≤ rate) (m : ℕ) : 0 < idx rate m := by
  induction m with
  | zero => exact one_pos
  | succ n ih =>
      rw [idx]
      apply mul_pos ih
      have := mul_nonneg h (DECAY_pow_nonneg n)
      linarith

lemma idx_le_succ (rate : ℝ) (h : 0 ≤ rate) (m : ℕ) : idx rate m ≤ idx rate (m + 1) := by
  rw [idx]
  have h1 := (idx_pos rate h m).le
  have h2 := mul_nonneg h (DECAY_pow_nonneg m)
  nlinarith

lemma one_le_idx (rate : ℝ) (h : 0 ≤ rate) (m : ℕ) : 1 ≤ idx rate m := by
  induction m with
  | zero => simp [idx]
  | succ n ih => exact le_trans ih (idx_le_succ rate h n)

lemma idx_mono_rate (r1 r2 : ℝ) (h1 : 0 ≤ r1) (h12 : r1 ≤ r2) (m : ℕ) :
    idx r1 m ≤ idx r2 m := by
  induction m with
  | zero => exact le_refl 1
  | succ n ih =>
      rw [idx, idx]
      have hf : 1 + r1 * DECAY ^ n ≤ 1 + r2 * DECAY ^ n := by
        have := mul_le_mul_of_nonneg_right h12 (DECAY_pow_nonneg n)
        linarith
      have hfpos : 0 ≤ 1 + r1 * DECAY ^ n := by
        have := mul_nonneg h1 (DECAY_pow_nonneg n)
        linarith
      exact mul_le_mul ih hf hfpos (idx_pos r2 (le_trans h1 h12) n).le

lemma round2_mono {x y : ℝ} (h : x ≤ y) : round2 x ≤ round2 y := by
  unfold round2
  have hr : round (x * 100) ≤ round (y * 100) := by
    rw [round_eq, round_eq]
    exact Int.floor_le_floor (by linarith)
  have hc : ((round (x * 100) : ℤ) : ℝ) ≤ ((round (y * 100) : ℤ) : ℝ) := by
    exact_mod_cast hr
  linarith

lemma round2_one : round2 1 = 1 := by
  unfold round2
  norm_num [round_eq]

/-! ## The 0.35 cap at the concrete scenario `cm = 0.8`, `roas = 6` -/

lemma two_half_le_rpow : (2.5 : ℝ) ≤ (4 : ℝ) ^ (0.7 : ℝ) := by
  have h0 : (0 : ℝ) ≤ (4 : ℝ) ^ (0.7 : ℝ) := Real.rpow_nonneg (by norm_num) _
  have hp : ((4 : ℝ) ^ (0.7 : ℝ)) ^ (10 : ℕ) = (4 : ℝ) ^ (7 : ℕ) := by
    rw [← Real.rpow_natCast ((4 : ℝ) ^ (0.7 : ℝ)) 10,
        ← Real.rpow_mul (by norm_num : (0 : ℝ) ≤ 4),
        show (0.7 : ℝ) * ((10 : ℕ) : ℝ) = ((7 : ℕ) : ℝ) by norm_num,
        Real.rpow_natCast]
  apply le_of_pow_le_pow_left₀ (n := 10) (by norm_num) h0
  rw [hp]
  norm_num

lemma growthPerCycle_capped : growthPerCycle 0.8 6 = 0.35 := by
  unfold growthPerCycle rawExcess
  rw [show (0.8 : ℝ) * (6 - 1) = 4 by norm_num,
      show max (4 : ℝ) 0 = 4 from max_eq_left (by norm_num)]
  apply min_eq_right
  have := mul_le_mul_of_nonneg_right two_half_le_rpow (by norm_num : (0 : ℝ) ≤ 0.14)
  linarith

lemma portlessMonthly_capped : portlessMonthly 0.8 6 30 = ((7 / 20 : ℚ) : ℝ) := by
  unfold portlessMonthly portlessCycle
  rw [growthPerCycle_capped,
      show (1.0 : ℝ) - ((30 : ℝ) - 30) * 0.004 = 1 by norm_num,
      show max (0.75 : ℝ) 1 = 1 from max_eq_right (by norm_num)]
  norm_num

lemma traditionalMonthly_capped : traditionalMonthly 0.8 6 = ((1 / 10 : ℚ) : ℝ) := by
  unfold traditionalMonthly TRADITIONAL_CYCLE
  rw [growthPerCycle_capped]
  norm_num

/-! ## The shape of the returned series -/

/-- The value the source records for a model at a given month: 1 at month 0,
and the 2-decimal rounding of the (unrounded) accumulator afterwards. -/
noncomputable def recorded (rate : ℝ) : ℕ → ℝ
  | 0 => 1
  | m + 1 => round2 (idx rate (m + 1))

lemma simulate_data_eq (cm roas netTermsDays : ℝ) :
    (simulate cm roas netTermsDays).data = (List.range 13).map (fun m =>
      ⟨m, recorded (portlessMonthly cm roas netTermsDays) m,
          recorded (traditionalMonthly cm roas) m⟩) := by
  rw [show (13 : ℕ) = 12 + 1 from rfl, List.range_succ_eq_map, List.map_cons, List.map_map]
  rfl

lemma recorded_le_succ (rate : ℝ) (h : 0 ≤ rate) (m : ℕ) :
    recorded rate m ≤ recorded rate (m + 1) := by
  cases m with
  | zero =>
      show (1 : ℝ) ≤ round2 (idx rate 1)
      calc (1 : ℝ) = round2 1 := round2_one.symm
        _ ≤ round2 (idx rate 1) := round2_mono (one_le_idx rate h 1)
  | succ n =>
      exact round2_mono (idx_le_succ rate h (n + 1))

/-! ## Claim theorems -/

/-- C3. For every input, `simulate` derives
`growthPerCycle = min(0.35, 0.14 * (max 0 (cm * (roas - 1))) ^ 0.7)`: the excess
return is clamped to 0 from below before the fractional power, multiplied by
0.14, and capped at 0.35; for `cm = 0.80`, `roas = 6.0` the uncapped value
`0.14 * 4 ^ 0.7 ≈ 0.3695` is capped to exactly 0.35. -/
theorem C3_growthPerCycle_formula :
    (∀ cm roas : ℝ, growthPerCycle cm roas
        = min 0.35 (0.14 * (max 0 (cm * (roas - 1))) ^ (0.7 : ℝ))) ∧
    growthPerCycle 0.8 6 = 0.35 := by
  constructor
  · intro cm roas
    unfold growthPerCycle rawExcess
    rw [mul_comm ((max (cm * (roas - 1)) 0) ^ (0.7 : ℝ)) 0.14, max_comm, min_comm]
  · exact growthPerCycle_capped

/-- C4. For every input, `simulate` uses a traditional cycle length of exactly
3.5 months, a fast-cycle length of `max(0.75, 1.0 - (netTermsDays - 30) * 0.004)`
months, and sets each model's monthly rate to `growthPerCycle` divided by that
model's cycle length, with the same `growthPerCycle` shared by both models. -/
theorem C4_cycle_lengths_and_rates (cm roas netTermsDays : ℝ) :
    TRADITIONAL_CYCLE = 3.5 ∧
    portlessCycle netTermsDays = max 0.75 (1.0 - (netTermsDays - 30) * 0.004) ∧
    portlessMonthly cm roas netTermsDays
      = growthPerCycle cm roas / portlessCycle netTermsDays ∧
    traditionalMonthly cm roas = growthPerCycle cm roas / TRADITIONAL_CYCLE :=
  ⟨rfl, rfl, rfl, rfl⟩

/-- C5. For every input, the series returned by `simulate` has exactly 13
points whose `month` fields are `0, 1, ..., 12` in strictly increasing order,
and the first point has month 0 with both indices equal to 1. -/
theorem C5_series_shape (cm roas netTermsDays : ℝ) :
    (simulate cm roas netTermsDays).data.length = 13 ∧
    (simulate cm roas netTermsDays).data.map IndexedPoint.month = List.range 13 ∧
    List.Chain' (fun p q : IndexedPoint => p.month < q.month)
      (simulate cm roas netTermsDays).data ∧
    (simulate cm roas netTermsDays).data.head? = some ⟨0, 1, 1⟩ := by
  refine ⟨?_, ?_, ?_, rfl⟩
  · simp [simulate]
  · rw [simulate_data_eq, List.map_map]
    exact List.map_id _
  · rw [simulate_data_eq, List.chain'_map,
        show (13 : ℕ) = 12 + 1 from rfl, List.chain'_range_succ]
    intro m _
    exact Nat.lt_succ_self m

/-- C6. For every input with non-negative `contributionMargin` and `roas`, both
recorded index sequences in the series returned by `simulate` are monotonically
non-decreasing as the month increases. -/
theorem C6_series_monotone (cm roas netTermsDays : ℝ)
    (hcm : 0 ≤ cm) (hroas : 0 ≤ roas) :
    List.Chain' (fun p q : IndexedPoint =>
        p.portless ≤ q.portless ∧ p.traditional ≤ q.traditional)
      (simulate cm roas netTermsDays).data := by
  rw [simulate_data_eq, List.chain'_map,
      show (13 : ℕ) = 12 + 1 from rfl, List.chain'_range_succ]
  intro m _
  exact ⟨recorded_le_succ _ (portlessMonthly_nonneg cm roas netTermsDays) m,
         recorded_le_succ _ (traditionalMonthly_nonneg cm roas) m⟩

theorem C6_witness :
    List.Chain' (fun p q : IndexedPoint =>
        p.portless ≤ q.portless ∧ p.traditional ≤ q.traditional)
      (simulate 0.5 3 45).data :=
  C6_series_monotone 0.5 3 45 (by norm_num) (by norm_num)

/-- C7. For every input with non-negative `contributionMargin` and `roas` whose
derived fast-cycle length is strictly below 3.5 months, the multiplier
returned by `simulate` is at least 1. -/
theorem C7_multiplier_ge_one (cm roas netTermsDays : ℝ)
    (hcm : 0 ≤ cm) (hroas : 0 ≤ roas)
    (hfast : portlessCycle netTermsDays < 3.5) :
    1 ≤ (simulate cm roas netTermsDays).multiplier := by
  show 1 ≤ idx (portlessMonthly cm roas netTermsDays) 12 /
           idx (traditionalMonthly cm roas) 12
  have htm := traditionalMonthly_nonneg cm roas
  have hrate : traditionalMonthly cm roas ≤ portlessMonthly cm roas netTermsDays := by
    unfold traditionalMonthly portlessMonthly TRADITIONAL_CYCLE
    exact div_le_div_of_nonneg_left (growthPerCycle_nonneg cm roas)
      (portlessCycle_pos netTermsDays) hfast.le
  rw [one_le_div (idx_pos _ htm 12)]
  exact idx_mono_rate _ _ htm hrate 12

theorem C7_witness : 1 ≤ (simulate 0.5 3 45).multiplier :=
  C7_multiplier_ge_one 0.5 3 45 (by norm_num) (by norm_num)
    (by unfold portlessCycle; exact max_lt (by norm_num) (by norm_num))

/-- C10. For any two calls to `simulate` that agree on `contributionMargin` and
`roas` but differ in `netTermsDays`, the traditional sequence (month paired
with traditional index) of the returned series is identical: `netTermsDays`
influences only the fast-model values and the multiplier. -/
theorem C10_traditional_independent_of_terms (cm roas n1 n2 : ℝ) :
    (simulate cm roas n1).data.map (fun p => (p.month, p.traditional)) =
    (simulate cm roas n2).data.map (fun p => (p.month, p.traditional)) := by
  rw [simulate_data_eq, simulate_data_eq, List.map_map, List.map_map]
  rfl

/-- C8. For every input with non-negative margin and `contributionMargin = 0`
or `roas ≤ 1` (the spec restricts `contributionMargin` to `[0,1]`), `simulate`
derives `growthPerCycle = 0`, every point of the returned series has both
indices equal to 1, and the returned multiplier equals 1. -/
theorem C8_flat_when_no_excess (cm roas netTermsDays : ℝ)
    (hcm : 0 ≤ cm) (h : cm = 0 ∨ roas ≤ 1) :
    growthPerCycle cm roas = 0 ∧
    (∀ p ∈ (simulate cm roas netTermsDays).data, p.portless = 1 ∧ p.traditional = 1) ∧
    (simulate cm roas netTermsDays).multiplier = 1 := by
  have hex : rawExcess cm roas ≤ 0 := by
    unfold rawExcess
    rcases h with h | h
    · rw [h, zero_mul]
    · have hr : roas - 1 ≤ 0 := by linarith
      nlinarith
  have hg : growthPerCycle cm roas = 0 := by
    unfold growthPerCycle
    rw [max_eq_right hex, Real.zero_rpow (by norm_num), zero_mul,
        min_eq_left (by norm_num)]
  have hpm : portlessMonthly cm roas netTermsDays = 0 := by
    unfold portlessMonthly
    rw [hg, zero_div]
  have htm : traditionalMonthly cm roas = 0 := by
    unfold traditionalMonthly
    rw [hg, zero_div]
  have hidx : ∀ m, idx 0 m = 1 := by
    intro m
    induction m with
    | zero => rfl
    | succ n ih =>
        rw [idx, ih]
        ring
  have hrec : ∀ m, recorded (0 : ℝ) m = 1 := by
    intro m
    cases m with
    | zero => rfl
    | succ n =>
        show round2 (idx 0 (n + 1)) = 1
        rw [hidx, round2_one]
  refine ⟨hg, ?_, ?_⟩
  · intro p hp
    rw [simulate_data_eq, hpm, htm] at hp
    obtain ⟨m, _, rfl⟩ := List.mem_map.mp hp
    exact ⟨hrec m, hrec m⟩
  · show idx (portlessMonthly cm roas netTermsDays) 12 /
         idx (traditionalMonthly cm roas) 12 = 1
    rw [hpm, htm, hidx 12]
    norm_num

theorem C8_witness :
    growthPerCycle 0 3 = 0 ∧
    (∀ p ∈ (simulate 0 3 60).data, p.portless = 1 ∧ p.traditional = 1) ∧
    (simulate 0 3 60).multiplier = 1 :=
  C8_flat_when_no_excess 0 3 60 (by norm_num) (Or.inl rfl)

/-- C9. Holding `roas` and `netTermsDays` fixed, for any two margins
`cm1 ≤ cm2` in the spec's input domain (`contributionMargin ≥ 0`) with both
excess returns non-negative, the derived `growthPerCycle` is monotone, and
consequently so is each model's monthly rate. -/
theorem C9_growth_monotone_in_margin (cm1 cm2 roas netTermsDays : ℝ)
    (h0 : 0 ≤ cm1) (h12 : cm1 ≤ cm2)
    (he1 : 0 ≤ cm1 * (roas - 1)) (he2 : 0 ≤ cm2 * (roas - 1)) :
    growthPerCycle cm1 roas ≤ growthPerCycle cm2 roas ∧
    portlessMonthly cm1 roas netTermsDays ≤ portlessMonthly cm2 roas netTermsDays ∧
    traditionalMonthly cm1 roas ≤ traditionalMonthly cm2 roas := by
  have hee : rawExcess cm1 roas ≤ rawExcess cm2 roas := by
    unfold rawExcess
    rcases le_or_lt 0 (roas - 1) with hr | hr
    · exact mul_le_mul_of_nonneg_right h12 hr
    · have h1 : cm1 * (roas - 1) ≤ 0 := by nlinarith
      linarith
  have hg : growthPerCycle cm1 roas ≤ growthPerCycle cm2 roas := by
    unfold growthPerCycle
    apply min_le_min _ le_rfl
    apply mul_le_mul_of_nonneg_right _ (by norm_num)
    exact Real.rpow_le_rpow (le_max_right _ _) (max_le_max hee le_rfl) (by norm_num)
  refine ⟨hg, ?_, ?_⟩
  · unfold portlessMonthly
    exact (div_le_div_iff_of_pos_right (portlessCycle_pos netTermsDays)).mpr hg
  · unfold traditionalMonthly
    exact (div_le_div_iff_of_pos_right (by norm_num [TRADITIONAL_CYCLE])).mpr hg

theorem C9_witness :
    growthPerCycle 0.3 3 ≤ growthPerCycle 0.5 3 ∧
    portlessMonthly 0.3 3 45 ≤ portlessMonthly 0.5 3 45 ∧
    traditionalMonthly 0.3 3 ≤ traditionalMonthly 0.5 3 :=
  C9_growth_monotone_in_margin 0.3 0.5 3 45 (by norm_num) (by norm_num)
    (by norm_num) (by norm_num)

/-- C1 counterexample. At `cm = 0.8`, `roas = 6`, `netTermsDays = 30` the
month-3 fast value recorded by `simulate` (2.39, the rounding of the
full-precision accumulator) differs from the value the rounded-forward
recurrence claimed by the spec would record (2.38): the loop does NOT carry
the rounded value into the next month's multiplication. -/
theorem C1_counterexample_rounded_carry :
    ((simulate 0.8 6 30).data[3]?).map IndexedPoint.portless ≠
      some (idxRoundedForward (portlessMonthly 0.8 6 30) 3) := by
  have hdata : ((simulate 0.8 6 30).data[3]?).map IndexedPoint.portless
      = some (round2 (idx (portlessMonthly 0.8 6 30) 3)) := by
    simp only [simulate]
    rw [List.getElem?_cons_succ, List.getElem?_map,
        List.getElem?_range (show 2 < 12 by norm_num)]
    rfl
  rw [hdata, portlessMonthly_capped, idx_cast, round2_cast, idxRoundedForward_cast]
  simp only [ne_eq, Option.some.injEq]
  intro hcon
  have h2 : round2Q (idxQ (7 / 20) 3) = idxRoundedForwardQ (7 / 20) 3 := by
    exact_mod_cast hcon
  have h3 : round2Q (idxQ (7 / 20) 3) ≠ idxRoundedForwardQ (7 / 20) 3 := by
    norm_num [round2Q, idxQ, idxRoundedForwardQ, round_eq]
  exact h3 h2

/-- C1 (amended). For every month `m` from 1 to 12 the decay factor is
`0.96 ^ (m-1)`, each model's index is updated by multiplying by
`(1 + monthlyRate * decay)`, and the ROUNDING of the accumulator is recorded
in the series — but the value carried into month `m+1`'s multiplication is
the full-precision accumulator, not the rounded value. -/
theorem C1_amended_unrounded_carry (cm roas netTermsDays : ℝ) (m : ℕ)
    (h1 : 1 ≤ m) (h2 : m ≤ 12) :
    (simulate cm roas netTermsDays).data[m]? =
      some ⟨m, round2 (idx (portlessMonthly cm roas netTermsDays) m),
               round2 (idx (traditionalMonthly cm roas) m)⟩ ∧
    (∀ rate : ℝ, idx rate m = idx rate (m - 1) * (1 + rate * DECAY ^ (m - 1))) := by
  obtain ⟨k, rfl⟩ : ∃ k, m = k + 1 := ⟨m - 1, by omega⟩
  constructor
  · simp only [simulate]
    rw [List.getElem?_cons_succ, List.getElem?_map,
        List.getElem?_range (show k < 12 by omega)]
    rfl
  · intro rate
    simp [idx]

theorem C1_amended_witness :
    (simulate 0.5 3 45).data[3]? =
      some ⟨3, round2 (idx (portlessMonthly 0.5 3 45) 3),
               round2 (idx (traditionalMonthly 0.5 3) 3)⟩ ∧
    (∀ rate : ℝ, idx rate 3 = idx rate 2 * (1 + rate * DECAY ^ 2)) :=
  C1_amended_unrounded_carry 0.5 3 45 3 (by norm_num) (by norm_num)

/-- C2 counterexample. At `cm = 0.8`, `roas = 6`, `netTermsDays = 30` the
multiplier returned by `simulate` (the ratio of the UNROUNDED final
accumulators, ≈ 7.7568) differs from the ratio of the rounded month-12 series
entries (19.67 / 2.54 ≈ 7.7441): the final indices are not the same values as
the rounded month-12 entries of the series. -/
theorem C2_counterexample_multiplier :
    ((simulate 0.8 6 30).data[12]?).map (fun p => p.portless / p.traditional) ≠
      some (simulate 0.8 6 30).multiplier := by
  have hdata : ((simulate 0.8 6 30).data[12]?).map (fun p => p.portless / p.traditional)
      = some (round2 (idx (portlessMonthly 0.8 6 30) 12) /
              round2 (idx (traditionalMonthly 0.8 6) 12)) := by
    simp only [simulate]
    rw [List.getElem?_cons_succ, List.getElem?_map,
        List.getElem?_range (show 11 < 12 by norm_num)]
    rfl
  have hmult : (simulate 0.8 6 30).multiplier
      = idx (portlessMonthly 0.8 6 30) 12 / idx (traditionalMonthly 0.8 6) 12 := rfl
  rw [hdata, hmult, portlessMonthly_capped, traditionalMonthly_capped,
      idx_cast, idx_cast, round2_cast, round2_cast]
  simp only [ne_eq, Option.some.injEq]
  intro hcon
  have h2 : round2Q (idxQ (7 / 20) 12) / round2Q (idxQ (1 / 10) 12)
      = idxQ (7 / 20) 12 / idxQ (1 / 10) 12 := by
    exact_mod_cast hcon
  have h3 : round2Q (idxQ (7 / 20) 12) / round2Q (idxQ (1 / 10) 12)
      ≠ idxQ (7 / 20) 12 / idxQ (1 / 10) 12 := by
    norm_num [round2Q, idxQ, round_eq]
  exact h3 h2

/-- C2 (amended). For every input, the multiplier returned by `simulate`
equals the fast-model accumulator at month 12 divided by the
traditional-model accumulator at month 12, both UNROUNDED, while the month-12
series entries record the 2-decimal roundings of those accumulators (which in
general differ from the unrounded values). -/
theorem C2_amended_multiplier (cm roas netTermsDays : ℝ) :
    (simulate cm roas netTermsDays).multiplier =
      idx (portlessMonthly cm roas netTermsDays) 12 /
      idx (traditionalMonthly cm roas) 12 ∧
    ((simulate cm roas netTermsDays).data[12]?).map IndexedPoint.portless =
      some (round2 (idx (portlessMonthly cm roas netTermsDays) 12)) ∧
    ((simulate cm roas netTermsDays).data[12]?).map IndexedPoint.traditional =
      some (round2 (idx (traditionalMonthly cm roas) 12)) := by
  refine ⟨rfl, ?_, ?_⟩ <;>
  · simp only [simulate]
    rw [List.getElem?_cons_succ, List.getElem?_map,
        List.getElem?_range (show 11 < 12 by norm_num)]
    rfl
